import Mathlib

/-!
Verification of the recurring-timer scheduler of `src/hello.py` (BossTimer).

Modelling conventions:
* Wall-clock instants and durations are integer numbers of seconds (`ℤ`);
  `now` is seconds since an epoch, a time-of-day is seconds since midnight.
* The `while next_time < now` loop of `refresh_all_timers` is embedded with
  explicit fuel, so that its possible divergence (zero period) is observable
  as `none`.
* The per-row alert check `check_alert_conditions` reads the shared flag
  `self.ringing`; a tick pass over the table threads that single flag
  through the rows, exactly as the Python object does.
-/

set_option autoImplicit false

namespace BossTimer

/-- Number of seconds in one day (`datetime.timedelta(days=1)`). -/
def secondsPerDay : ℤ := 86400

/-- Duration of a period given its minutes and seconds fields
(`datetime.timedelta(minutes=period_min, seconds=period_sec)`). -/
def periodSeconds (m s : ℤ) : ℤ := 60 * m + s

/-- Embeds `last_dt = datetime.datetime.combine(now.date(), last_time)`
followed by `if last_dt > now: last_dt -= datetime.timedelta(days=1)`
(src/hello.py lines 674-676).  `now / secondsPerDay` is floor division,
matching how the calendar date of `now` is obtained. -/
def resolveAnchor (lastTime now : ℤ) : ℤ :=
  if now < secondsPerDay * (now / secondsPerDay) + lastTime
  then secondsPerDay * (now / secondsPerDay) + lastTime - secondsPerDay
  else secondsPerDay * (now / secondsPerDay) + lastTime

/-- Fuel-indexed embedding of the loop
`while next_time < now: next_time += period` (src/hello.py lines 680-681).
`none` means the fuel ran out before the loop condition failed; a loop that
diverges returns `none` for every amount of fuel. -/
def nextTimeLoop : ℕ → ℤ → ℤ → ℤ → Option ℤ
  | 0, _, _, _ => none
  | fuel + 1, next, period, now =>
      if next < now then nextTimeLoop fuel (next + period) period now
      else some next

/-- Embeds `next_time = last_dt + period` followed by the catch-up loop
(src/hello.py lines 679-681). -/
def refreshNextTime (fuel : ℕ) (lastDt period now : ℤ) : Option ℤ :=
  nextTimeLoop fuel (lastDt + period) period now

/-- The full next-occurrence computation of `refresh_all_timers` for one row:
resolve the time-of-day anchor against `now`'s date, then run the catch-up
loop (src/hello.py lines 674-681). -/
def computeNextOccurrence (fuel : ℕ) (lastTime period now : ℤ) : Option ℤ :=
  refreshNextTime fuel (resolveAnchor lastTime now) period now

/-- Python `int()` applied to a rational: truncation toward zero. -/
def pyint (q : ℚ) : ℤ := if 0 ≤ q then ⌊q⌋ else ⌈q⌉

/-- The progress value of `update_row_display`:
`int((1 - remaining / total_sec) * 100)` (src/hello.py line 708).
The source only evaluates this under the guard `total_sec > 0`. -/
def progressPercent (remaining totalSec : ℤ) : ℤ :=
  pyint ((1 - (remaining : ℚ) / (totalSec : ℚ)) * 100)

/-- The pre-warning window test `178 <= remaining <= 180`
(src/hello.py line 720). -/
def preWindow (remaining : ℤ) : Bool :=
  decide (178 ≤ remaining) && decide (remaining ≤ 180)

/-- Embeds `check_alert_conditions` (src/hello.py lines 712-728) as the pair
of fired outcomes `(preWarningFired, dueFired)`.  A disabled row returns
early; the pre-warning branch ignores the ringing flag; the due branch is
`remaining <= 0 and not self.ringing`. -/
def check_alert_conditions (enabled ringing : Bool) (remaining : ℤ) :
    Bool × Bool :=
  if !enabled then (false, false)
  else (preWindow remaining, decide (remaining ≤ 0) && !ringing)

/-- Alert classification outcomes of the specification. -/
inductive AlertState where
  | none
  | preWarning
  | due
deriving DecidableEq, Repr

/-- The alert classification realised by `check_alert_conditions`: the two
branch guards are mutually exclusive, so the pair of booleans collapses to a
single state (src/hello.py lines 712-728). -/
def classifyAlert (enabled ringing : Bool) (remaining : ℤ) : AlertState :=
  if !enabled then AlertState.none
  else if preWindow remaining then AlertState.preWarning
  else if decide (remaining ≤ 0) && !ringing then AlertState.due
  else AlertState.none

/-- One row of the table as seen by the alert check on a tick: its enabled
checkbox and its remaining seconds. -/
structure AlertEntry where
  enabled : Bool
  remaining : ℤ
deriving DecidableEq, Repr

/-- Whether the due branch fires for one row, given the current shared
ringing flag: `remaining <= 0 and not self.ringing` under the enabled guard
(src/hello.py lines 714, 726). -/
def dueFires (ringing : Bool) (e : AlertEntry) : Bool :=
  e.enabled && (decide (e.remaining ≤ 0) && !ringing)

/-- One pass of `refresh_all_timers` over the table, restricted to the due
branch: rows are visited in order, a firing row runs `trigger_alarm`, which
sets the shared `self.ringing` to `True` (src/hello.py lines 663-684, 740).
Returns the per-row fired flags and the final ringing flag. -/
def duePass : Bool → List AlertEntry → List Bool × Bool
  | ringing, [] => ([], ringing)
  | ringing, e :: rest =>
      let f := dueFires ringing e
      let p := duePass (ringing || f) rest
      (f :: p.1, p.2)

/-- Effect of `stop_alarm_sound` on the shared ringing flag: its `finally`
block sets `self.ringing = False` unconditionally (src/hello.py line 793). -/
def stop_alarm_sound (_ringing : Bool) : Bool := false

/-- A run of consecutive ticks for a single enabled row: each tick fires the
due branch when `remaining <= 0 and not self.ringing`, and a firing tick
sets the shared flag.  Nothing in the tick loop clears the flag; only
`stop_alarm_sound` does. -/
def runDueTicks : Bool → List ℤ → List Bool
  | _, [] => []
  | ringing, r :: rest =>
      let f := dueFires ringing ⟨true, r⟩
      f :: runDueTicks (ringing || f) rest

/-- One row of the table as persisted: the `(name, minutes, seconds,
last_time, enabled)` fields read and written by `save_config` and
`load_config` (src/hello.py lines 862-882). -/
structure TimerRow where
  name : String
  minutes : ℤ
  seconds : ℤ
  last_time : String
  enabled : Bool
deriving DecidableEq, Repr

/-- One record of `boss_config.json`: every field is optional because
`load_config` reads each with `item.get(key, default)`
(src/hello.py lines 846-854). -/
structure ConfigRecord where
  name : Option String
  minutes : Option ℤ
  seconds : Option ℤ
  last_time : Option String
  enabled : Option Bool
deriving DecidableEq, Repr

/-- Embeds `save_config` (src/hello.py lines 862-882): each row is written
as a record with all five fields present, in table order. -/
def save_config (rows : List TimerRow) : List ConfigRecord :=
  rows.map fun r =>
    ⟨some r.name, some r.minutes, some r.seconds, some r.last_time,
     some r.enabled⟩

/-- Embeds `load_config` (src/hello.py lines 833-860): each record becomes a
row in file order, missing fields replaced by the defaults
`("新BOSS", 60, 0, "00:00:00", True)`. -/
def load_config (cfg : List ConfigRecord) : List TimerRow :=
  cfg.map fun item =>
    ⟨item.name.getD "新BOSS", item.minutes.getD 60, item.seconds.getD 0,
     item.last_time.getD "00:00:00", item.enabled.getD true⟩

/-- Closed-form next occurrence following the specification's wording
(spec sections 4.1 and its restatement in the refinement claim): the number
of whole periods elapsed since the anchor is obtained by integer division
and `periodsElapsed * period` is added once, yielding the least
`anchor + k * period` that is `≥ now`. -/
def closedFormNext (anchor period now : ℤ) : ℤ :=
  anchor + ((now - anchor + period - 1) / period) * period

/-! ### Helper lemmas about the catch-up loop -/

/-- Partial correctness of the catch-up loop: any returned value is `≥ now`,
is either the untouched starting value or overshoots `now` by less than one
period, and differs from the start by a whole number of periods. -/
theorem nextTimeLoop_post :
    ∀ (fuel : ℕ) (next period now t : ℤ),
      nextTimeLoop fuel next period now = some t →
      now ≤ t ∧ (t = next ∨ t - period < now) ∧ ∃ k : ℕ, t = next + k * period := by
  intro fuel
  induction fuel with
  | zero =>
      intro next period now t h
      simp [nextTimeLoop] at h
  | succ n ih =>
      intro next period now t h
      simp only [nextTimeLoop] at h
      by_cases hc : next < now
      · rw [if_pos hc] at h
        obtain ⟨h1, h2, k, hk⟩ := ih _ _ _ _ h
        refine ⟨h1, Or.inr ?_, ⟨k + 1, by push_cast at hk ⊢; linarith⟩⟩
        rcases h2 with h2 | h2
        · rw [h2]; simpa using hc
        · exact h2
      · rw [if_neg hc] at h
        obtain rfl : next = t := Option.some.inj h
        exact ⟨le_of_not_lt hc, Or.inl rfl, ⟨0, by simp⟩⟩

/-- With a strictly positive period the catch-up loop terminates:
`(now - next).toNat + 1` units of fuel suffice. -/
theorem nextTimeLoop_terminates (period now : ℤ) (hp : 0 < period) :
    ∀ (n : ℕ) (next : ℤ), (now - next).toNat ≤ n →
      ∃ t, nextTimeLoop (n + 1) next period now = some t := by
  intro n
  induction n with
  | zero =>
      intro next hle
      have hc : ¬ next < now := by omega
      exact ⟨next, by simp [nextTimeLoop, hc]⟩
  | succ m ih =>
      intro next hle
      by_cases hc : next < now
      · have h2 : (now - (next + period)).toNat ≤ m := by omega
        obtain ⟨t, ht⟩ := ih (next + period) h2
        exact ⟨t, by simp only [nextTimeLoop, if_pos hc]; exact ht⟩
      · exact ⟨next, by simp [nextTimeLoop, hc]⟩

/-- The resolved anchor never lies after `now`, provided the time-of-day
field is less than one day (as any `HH:MM:SS` value is). -/
theorem resolveAnchor_le (lastTime now : ℤ) (h : lastTime < secondsPerDay) :
    resolveAnchor lastTime now ≤ now := by
  have h' : lastTime < 86400 := by simpa [secondsPerDay] using h
  unfold resolveAnchor secondsPerDay
  split_ifs <;> omega

/-- Post-condition of `refresh_all_timers`' next-time computation for one
row, assuming the anchor is not in the future. -/
theorem refreshNextTime_post (fuel : ℕ) (lastDt period now t : ℤ)
    (hp : 0 < period) (ha : lastDt ≤ now)
    (h : refreshNextTime fuel lastDt period now = some t) :
    now ≤ t ∧ t - period ≤ now ∧ (lastDt < now → t - period < now) ∧
      ∃ k : ℕ, t = lastDt + (k + 1) * period := by
  obtain ⟨h1, h2, k, hk⟩ := nextTimeLoop_post fuel (lastDt + period) period now t h
  refine ⟨h1, ?_, ?_, ⟨k, by push_cast at hk ⊢; linarith⟩⟩
  · rcases h2 with h2 | h2
    · rw [h2]; linarith
    · linarith
  · intro hlt
    rcases h2 with h2 | h2
    · rw [h2]; linarith
    · exact h2

/-- The while loop with a zero period never makes progress: when the
starting value is below `now`, no amount of fuel produces a result. -/
theorem nextTimeLoop_zero_diverges :
    ∀ (fuel : ℕ) (next now : ℤ), next < now →
      nextTimeLoop fuel next 0 now = none := by
  intro fuel
  induction fuel with
  | zero => intro next now _; rfl
  | succ n ih =>
      intro next now h
      simp only [nextTimeLoop, if_pos h]
      have := ih (next + 0) now (by omega)
      simpa using this

/-- A value `≥ now` produced by the loop, overshooting by less than one
period, is exactly the closed-form least multiple of the period past the
anchor, whenever the anchor is strictly before `now`. -/
theorem closedFormNext_eq (anchor period now t : ℤ) (k : ℕ)
    (hp : 0 < period) (ha : anchor < now)
    (hk : t = anchor + (k + 1) * period)
    (h1 : now ≤ t) (h2 : t - period < now) :
    t = closedFormNext anchor period now := by
  have hk1 : (k : ℤ) * period < now - anchor := by
    have : anchor + ((k : ℤ) + 1) * period - period < now := by
      rw [hk] at h2; push_cast at h2; exact_mod_cast h2
    linarith [this]
  have hk2 : now - anchor ≤ ((k : ℤ) + 1) * period := by
    have : now ≤ anchor + ((k : ℤ) + 1) * period := by
      rw [hk] at h1; push_cast at h1; exact_mod_cast h1
    linarith [this]
  have hk1' : (k : ℤ) * period + 1 ≤ now - anchor := Int.add_one_le_iff.mpr hk1
  have hr0 : 0 ≤ now - anchor + period - 1 - period * ((k : ℤ) + 1) := by
    have : period * ((k : ℤ) + 1) = (k : ℤ) * period + period := by ring
    omega
  have hr1 : now - anchor + period - 1 - period * ((k : ℤ) + 1) < period := by
    have : period * ((k : ℤ) + 1) = ((k : ℤ) + 1) * period := by ring
    omega
  have e1 : now - anchor + period - 1 =
      (now - anchor + period - 1 - period * ((k : ℤ) + 1)) +
        period * ((k : ℤ) + 1) := by ring
  have hdiv : (now - anchor + period - 1) / period = (k : ℤ) + 1 := by
    rw [e1, Int.add_mul_ediv_left _ _ (ne_of_gt hp),
      Int.ediv_eq_zero_of_lt hr0 hr1]
    ring
  unfold closedFormNext
  rw [hdiv]
  exact hk

/-! ### Claim theorems -/

/-- C2 (counterexample): the claim's bound `t - period < now` fails on the
code.  At `lastTrigger = 10:00:00`, `period = 3600 s`, `now = 10:00:00`
(the spec's own first scenario) the computation returns `11:00:00`, and
`t - period = 10:00:00 = now` is not strictly below `now`. -/
theorem computeNextOccurrence_strict_bound_cex :
    computeNextOccurrence 10 36000 3600 36000 = some 39600 ∧
      ¬ ((39600 : ℤ) - 3600 < 36000) := by
  constructor
  · decide
  · decide

/-- C2 (amended): for every time-of-day `lastTrigger` and positive period,
any result `t` of the next-occurrence computation satisfies `now ≤ t` and
`t - period ≤ now`, with the strict bound `t - period < now` whenever the
resolved anchor is strictly before `now`; moreover for some fuel the
computation does return a result. -/
theorem computeNextOccurrence_bounds (lastTime period now : ℤ) (fuel : ℕ)
    (t : ℤ) (hlt : lastTime < secondsPerDay) (hp : 0 < period)
    (h : computeNextOccurrence fuel lastTime period now = some t) :
    now ≤ t ∧ t - period ≤ now ∧
      (resolveAnchor lastTime now < now → t - period < now) ∧
      ∃ (fuel' : ℕ) (t' : ℤ),
        computeNextOccurrence fuel' lastTime period now = some t' := by
  have ha := resolveAnchor_le lastTime now hlt
  obtain ⟨h1, h2, h3, _⟩ :=
    refreshNextTime_post fuel (resolveAnchor lastTime now) period now t hp ha h
  refine ⟨h1, h2, h3, ?_⟩
  obtain ⟨t', ht'⟩ := nextTimeLoop_terminates period now hp
    (now - (resolveAnchor lastTime now + period)).toNat
    (resolveAnchor lastTime now + period) (le_refl _)
  refine ⟨(now - (resolveAnchor lastTime now + period)).toNat + 1, t', ?_⟩
  unfold computeNextOccurrence refreshNextTime
  exact ht'

/-- C2 (witness): the amended bounds instantiated on the spec's second
scenario, `lastTrigger = 10:00:00`, `period = 3600 s`, `now = 13:05:00`,
where the computed occurrence is `14:00:00`. -/
theorem computeNextOccurrence_bounds_wit :
    (47100 : ℤ) ≤ 50400 ∧ (50400 : ℤ) - 3600 ≤ 47100 ∧
      (resolveAnchor 36000 47100 < 47100 → (50400 : ℤ) - 3600 < 47100) ∧
      ∃ (fuel' : ℕ) (t' : ℤ),
        computeNextOccurrence fuel' 36000 3600 47100 = some t' :=
  computeNextOccurrence_bounds 36000 3600 47100 10 50400
    (by decide) (by decide) (by decide)

/-- C3: the code has no `InvalidPeriod` guard and does not treat a zero
period as "never due": for an entry with `period = 0` whose anchor lies
strictly before `now` (here `lastTrigger = 10:00:00`, `now = 13:05:00`),
the loop `while next_time < now: next_time += period` never terminates —
no amount of fuel yields a result. -/
theorem zero_period_diverges :
    ∀ fuel : ℕ, computeNextOccurrence fuel 36000 0 47100 = none := by
  intro fuel
  unfold computeNextOccurrence refreshNextTime
  have ha : resolveAnchor 36000 47100 = 36000 := by decide
  rw [ha]
  exact nextTimeLoop_zero_diverges fuel (36000 + 0) 47100 (by norm_num)

/-- C4 (counterexample): the implemented repeated-addition loop does not
equal the closed-form computation on every `anchor ≤ now`: at
`anchor = now = 10:00:00` with a one-hour period the loop returns
`11:00:00` while the closed form (zero whole periods elapsed) yields
`10:00:00`. -/
theorem loop_eq_closedForm_cex :
    refreshNextTime 10 36000 3600 36000 = some 39600 ∧
      closedFormNext 36000 3600 36000 = 36000 ∧
      (39600 : ℤ) ≠ 36000 := by
  refine ⟨by decide, by decide, by decide⟩

/-- C4 (amended): for every anchor strictly before `now` and positive
period — in particular for long-idle inputs — any result of the
implemented repeated-addition loop equals the closed-form
integer-division computation. -/
theorem loop_eq_closedForm (anchor period now : ℤ) (fuel : ℕ) (t : ℤ)
    (hp : 0 < period) (ha : anchor < now)
    (h : refreshNextTime fuel anchor period now = some t) :
    t = closedFormNext anchor period now := by
  obtain ⟨h1, _, h3, k, hk⟩ :=
    refreshNextTime_post fuel anchor period now t hp (le_of_lt ha) h
  exact closedFormNext_eq anchor period now t k hp ha (by push_cast at hk ⊢; linarith)
    h1 (h3 ha)

/-- C4 (witness): the amended equivalence instantiated on a long-idle-style
input, `anchor = 10:00:00`, `period = 3600 s`, `now = 13:05:00`. -/
theorem loop_eq_closedForm_wit :
    (50400 : ℤ) = closedFormNext 36000 3600 47100 :=
  loop_eq_closedForm 36000 3600 47100 10 50400 (by decide) (by decide) (by decide)

/-- C5: on a tick, the next occurrence recomputed by `refresh_all_timers`
for a row with a positive period satisfies `now ≤ t`, so the remaining
seconds fed to `check_alert_conditions` on the same tick are never
negative, and the due classification can only be reached when the next
occurrence equals `now` exactly. -/
theorem due_only_at_exact_now (lastTime period now : ℤ) (fuel : ℕ) (t : ℤ)
    (enabled ringing : Bool) (hlt : lastTime < secondsPerDay)
    (hp : 0 < period)
    (h : computeNextOccurrence fuel lastTime period now = some t) :
    0 ≤ t - now ∧
      (classifyAlert enabled ringing (t - now) = AlertState.due → t = now) := by
  obtain ⟨h1, _, _, _⟩ := refreshNextTime_post fuel (resolveAnchor lastTime now)
    period now t hp (resolveAnchor_le lastTime now hlt) h
  refine ⟨by linarith, ?_⟩
  intro hc
  unfold classifyAlert at hc
  split_ifs at hc with e1 e2 e3
  all_goals first
    | exact absurd hc (by decide)
    | · simp only [Bool.and_eq_true, decide_eq_true_eq] at e3
        obtain ⟨e4, _⟩ := e3
        omega

/-- C5 (witness): at the exact firing instant `now = 11:00:00` with
`lastTrigger = 10:00:00` and a one-hour period, the recomputed occurrence
is `11:00:00`, the remaining time is `0`, and the due classification
indeed pins the occurrence to `now`. -/
theorem due_only_at_exact_now_wit :
    (0 : ℤ) ≤ 39600 - 39600 ∧
      (classifyAlert true false ((39600 : ℤ) - 39600) = AlertState.due →
        (39600 : ℤ) = 39600) :=
  due_only_at_exact_now 36000 3600 39600 10 39600 true false
    (by decide) (by decide) (by decide)

/-- C6: for a row with positive period, the progress value computed by
`update_row_display` from any next occurrence produced by the recurrence
computation is `int((1 - remaining/period) * 100)` with the elapsed
fraction lying in `[0, 1]` and the percentage in `[0, 100]`. -/
theorem progress_in_range (lastTime period now : ℤ) (fuel : ℕ) (t : ℤ)
    (hlt : lastTime < secondsPerDay) (hp : 0 < period)
    (h : computeNextOccurrence fuel lastTime period now = some t) :
    (0 : ℚ) ≤ 1 - ((t - now : ℤ) : ℚ) / (period : ℚ) ∧
      1 - ((t - now : ℤ) : ℚ) / (period : ℚ) ≤ 1 ∧
      0 ≤ progressPercent (t - now) period ∧
      progressPercent (t - now) period ≤ 100 := by
  obtain ⟨h1, h2, _, _⟩ := refreshNextTime_post fuel (resolveAnchor lastTime now)
    period now t hp (resolveAnchor_le lastTime now hlt) h
  have hr0 : (0 : ℤ) ≤ t - now := by linarith
  have hrp : t - now ≤ period := by linarith
  have hpQ : (0 : ℚ) < (period : ℚ) := by exact_mod_cast hp
  have hq0 : (0 : ℚ) ≤ ((t - now : ℤ) : ℚ) := by exact_mod_cast hr0
  have hq1 : ((t - now : ℤ) : ℚ) ≤ (period : ℚ) := by exact_mod_cast hrp
  have hdiv0 : (0 : ℚ) ≤ ((t - now : ℤ) : ℚ) / (period : ℚ) :=
    div_nonneg hq0 (le_of_lt hpQ)
  have hdiv1 : ((t - now : ℤ) : ℚ) / (period : ℚ) ≤ 1 :=
    (div_le_one hpQ).mpr hq1
  have hfrac0 : (0 : ℚ) ≤ 1 - ((t - now : ℤ) : ℚ) / (period : ℚ) := by linarith
  have hfrac1 : 1 - ((t - now : ℤ) : ℚ) / (period : ℚ) ≤ 1 := by linarith
  have hq100 : (0 : ℚ) ≤ (1 - ((t - now : ℤ) : ℚ) / (period : ℚ)) * 100 := by
    nlinarith
  have hq100' : (1 - ((t - now : ℤ) : ℚ) / (period : ℚ)) * 100 ≤ 100 := by
    nlinarith
  have hpy : progressPercent (t - now) period =
      ⌊(1 - ((t - now : ℤ) : ℚ) / (period : ℚ)) * 100⌋ := by
    unfold progressPercent pyint
    rw [if_pos (by push_cast; push_cast at hq100; linarith)]
  refine ⟨hfrac0, hfrac1, ?_, ?_⟩
  · rw [hpy]
    exact Int.le_floor.mpr (by exact_mod_cast hq100)
  · rw [hpy]
    have : (⌊(1 - ((t - now : ℤ) : ℚ) / (period : ℚ)) * 100⌋ : ℚ) ≤ 100 :=
      le_trans (Int.floor_le _) hq100'
    exact_mod_cast this

/-- C6 (witness): the progress bounds instantiated on the spec's second
scenario, remaining `3300 s` of a `3600 s` period (progress 8%). -/
theorem progress_in_range_wit :
    (0 : ℚ) ≤ 1 - ((50400 - 47100 : ℤ) : ℚ) / ((3600 : ℤ) : ℚ) ∧
      1 - ((50400 - 47100 : ℤ) : ℚ) / ((3600 : ℤ) : ℚ) ≤ 1 ∧
      0 ≤ progressPercent (50400 - 47100) 3600 ∧
      progressPercent (50400 - 47100) 3600 ≤ 100 :=
  progress_in_range 36000 3600 47100 10 50400 (by decide) (by decide) (by decide)

/-- C7: `classifyAlert` yields the pre-warning state exactly for enabled
rows with `178 ≤ remaining ≤ 180`, and yields no alert at all for disabled
rows regardless of remaining time — the enabled guard takes priority over
both alert rules. -/
theorem preWarning_iff_window :
    ∀ (enabled ringing : Bool) (r : ℤ),
      (classifyAlert enabled ringing r = AlertState.preWarning ↔
        enabled = true ∧ 178 ≤ r ∧ r ≤ 180) ∧
      (enabled = false → classifyAlert enabled ringing r = AlertState.none) := by
  intro enabled ringing r
  cases enabled
  · refine ⟨?_, fun _ => rfl⟩
    simp [classifyAlert]
  · constructor
    · unfold classifyAlert preWindow
      split_ifs with e1 e2 e3 <;> simp_all
    · intro hcon
      cases hcon

/-- C7 (witness): the characterisation instantiated at remaining `179 s`
(pre-warning fires) for an enabled row. -/
theorem preWarning_iff_window_wit :
    classifyAlert true false 179 = AlertState.preWarning :=
  (preWarning_iff_window true false 179).1.mpr ⟨rfl, by decide, by decide⟩

/-- C8: the spec's two concrete scenarios, traced through the full
next-occurrence pipeline: with `period = 60 min 0 s` and
`lastTrigger = 10:00:00`, at `now = 10:00:00` the next occurrence is
`11:00:00` (remaining `3600 s`, progress 0%), and at `now = 13:05:00` it
is `14:00:00` (remaining `3300 s`). -/
theorem scenario_hour_period :
    periodSeconds 60 0 = 3600 ∧
      computeNextOccurrence 10 36000 3600 36000 = some 39600 ∧
      (39600 : ℤ) - 36000 = 3600 ∧
      progressPercent 3600 3600 = 0 ∧
      computeNextOccurrence 10 36000 3600 47100 = some 50400 ∧
      (50400 : ℤ) - 47100 = 3300 := by
  refine ⟨by decide, by decide, by decide, ?_, by decide, by decide⟩
  unfold progressPercent pyint
  norm_num

/-! ### Helper lemmas about the shared ringing flag -/

/-- While the shared ringing flag is set, a tick pass fires no due alarm at
all and leaves the flag set. -/
theorem duePass_flag_set :
    ∀ entries : List AlertEntry,
      (duePass true entries).1.count true = 0 ∧ (duePass true entries).2 = true := by
  intro entries
  induction entries with
  | nil => simp [duePass]
  | cons e rest ih =>
      have hf : dueFires true e = false := by simp [dueFires]
      simp [duePass, hf, ih.1, ih.2]

/-- A single tick pass fires the due alarm for at most one row: the first
firing row sets the shared flag, which suppresses every later row. -/
theorem duePass_count_le_one :
    ∀ (ringing : Bool) (entries : List AlertEntry),
      (duePass ringing entries).1.count true ≤ 1 := by
  intro ringing entries
  induction entries generalizing ringing with
  | nil => simp [duePass]
  | cons e rest ih =>
      by_cases hf : dueFires ringing e = true
      · have hflag : (ringing || dueFires ringing e) = true := by simp [hf]
        have h0 := (duePass_flag_set rest).1
        simp [duePass, hf, hflag, h0]
      · have hf' : dueFires ringing e = false := by
          cases hfe : dueFires ringing e
          · rfl
          · exact absurd hfe hf
        have := ih (ringing || dueFires ringing e)
        simp [duePass, hf'] at this ⊢
        exact this

/-- While the shared ringing flag is set, a run of consecutive ticks for a
single row fires no due alarm. -/
theorem runDueTicks_flag_set :
    ∀ rems : List ℤ, (runDueTicks true rems).count true = 0 := by
  intro rems
  induction rems with
  | nil => rfl
  | cons r rest ih =>
      have hf : dueFires true ⟨true, r⟩ = false := by simp [dueFires]
      simp [runDueTicks, hf, ih]

/-! ### Claim theorems about the due alarm -/

/-- C1 (counterexample): the due suppression is not per entry.  With two
enabled rows both at remaining `0` and the flag clear, the first tick
fires only the first row — the second row's own crossing is suppressed by
the flag the first row just set — and a second tick (both rows now
overdue, still unacknowledged) fires nothing, so the second row never
receives its one due alert per crossing. -/
theorem due_suppression_not_per_entry_cex :
    duePass false [⟨true, 0⟩, ⟨true, 0⟩] = ([true, false], true) ∧
      duePass (duePass false [⟨true, 0⟩, ⟨true, 0⟩]).2
        [⟨true, -1⟩, ⟨true, -1⟩] = ([false, false], true) := by
  constructor
  · decide
  · decide

/-- C1 (amended): the once-per-crossing suppression is global, through the
single shared `self.ringing` flag: a pass started while the flag is set
fires nothing, any pass fires at most one due alarm across all rows, a
single row observed `≤ 0` on consecutive ticks fires exactly once until
acknowledged, and the stop-alarm action clears the shared flag. -/
theorem due_suppression_global :
    (∀ entries : List AlertEntry, (duePass true entries).1.count true = 0) ∧
      (∀ (ringing : Bool) (entries : List AlertEntry),
        (duePass ringing entries).1.count true ≤ 1) ∧
      (∀ rems : List ℤ, rems ≠ [] → (∀ r ∈ rems, r ≤ 0) →
        (runDueTicks false rems).count true = 1) ∧
      (∀ ringing : Bool, stop_alarm_sound ringing = false) := by
  refine ⟨fun entries => (duePass_flag_set entries).1, duePass_count_le_one,
    ?_, fun _ => rfl⟩
  intro rems hne hall
  cases rems with
  | nil => exact absurd rfl hne
  | cons r rest =>
      have hr : r ≤ 0 := hall r (List.mem_cons_self r rest)
      have hf : dueFires false ⟨true, r⟩ = true := by
        simp [dueFires]
        exact hr
      simp [runDueTicks, hf, runDueTicks_flag_set rest]

/-- C1 (witness): a single row overdue for three consecutive ticks fires
its due alarm exactly once. -/
theorem due_suppression_global_wit :
    (runDueTicks false [0, -1, -2]).count true = 1 :=
  due_suppression_global.2.2.1 [0, -1, -2] (by decide) (by decide)

/-- C9: saving the table to the persisted configuration format and
reloading it reproduces the identical `(name, minutes, seconds, last_time,
enabled)` tuple for every row, in the same order. -/
theorem config_round_trip :
    ∀ rows : List TimerRow, load_config (save_config rows) = rows := by
  intro rows
  induction rows with
  | nil => rfl
  | cons r rest ih =>
      simp only [save_config, load_config, List.map_cons, List.map_map] at ih ⊢
      rw [List.cons.injEq]
      exact ⟨rfl, ih⟩

/-- C10: the pre-warning outcome of the alert check ignores the ringing
flag entirely and has no once-per-crossing latch: it fires on every tick
with `178 ≤ remaining ≤ 180` for an enabled row, it does fire on each of
the three consecutive 1 Hz remaining values `180, 179, 178`, and those are
the only integer remaining values in the window, so it fires at most three
times per cycle at 1 Hz. -/
theorem preWarning_unlatched :
    (∀ (enabled r1 r2 : Bool) (rem : ℤ),
      (check_alert_conditions enabled r1 rem).1 =
        (check_alert_conditions enabled r2 rem).1) ∧
      (∀ rem : ℤ, 178 ≤ rem → rem ≤ 180 → ∀ ringing : Bool,
        (check_alert_conditions true ringing rem).1 = true) ∧
      ((check_alert_conditions true false 180).1 = true ∧
        (check_alert_conditions true true 179).1 = true ∧
        (check_alert_conditions true true 178).1 = true) ∧
      (∀ rem : ℤ, (check_alert_conditions true false rem).1 = true →
        rem = 178 ∨ rem = 179 ∨ rem = 180) := by
  refine ⟨?_, ?_, ⟨by decide, by decide, by decide⟩, ?_⟩
  · intro enabled r1 r2 rem
    cases enabled <;> simp [check_alert_conditions]
  · intro rem h1 h2 ringing
    simp [check_alert_conditions, preWindow]
    omega
  · intro rem h
    simp [check_alert_conditions, preWindow] at h
    omega

/-- C10 (witness): the unlatched pre-warning instantiated at remaining
`179 s` while the alarm is already ringing. -/
theorem preWarning_unlatched_wit :
    (check_alert_conditions true true 179).1 = true :=
  preWarning_unlatched.2.1 179 (by decide) (by decide) true

end BossTimer
